import Mathlib

/-!
Verification of the tuners scan → cluster → match pipeline.

This file gives a shallow embedding of the core data model and operations of
the repository (src/models.rs, src/codecs.rs, src/scanner/mod.rs, src/app.rs,
src/musicbrainz/client.rs, src/musicbrainz/search.rs, src/main.rs) and proves
the specification's testable properties about them.

Modelling conventions:
- Filesystem paths are lists of components (`List String`); the Rust
  `Path::parent().unwrap_or("")` becomes `List.dropLast` (which yields `[]`
  on the empty path).
- Rust `u32`/`u8` tag values carry no overflow-relevant arithmetic here and
  are modelled as `Nat`.
- `Vec::sort_by_key` is a stable sort; it is modelled by the stable insertion
  sort `sortTracks` below, proved sorted, a permutation, and stable.
- Channels are modelled by lists of the messages available at a poll, and
  receiver handles by booleans recording whether the receiver was wired up.
- Monotonic time (`Instant`) is modelled in milliseconds as `Nat`.
-/

/-- Audio codec enumeration from src/codecs.rs. -/
inductive AudioCodec where
  | flac
  | mp3
  | mp4
deriving DecidableEq, Repr

/-- A single audio file with extracted metadata, from src/models.rs. -/
structure AudioFile where
  path : List String
  codec : AudioCodec
  title : Option String
  artist : Option String
  album_artist : Option String
  album : Option String
  track_number : Option Nat
  total_tracks : Option Nat
  disc_number : Option Nat
  total_discs : Option Nat
  genre : Option String
  duration : Option Nat
deriving DecidableEq, Repr

/-- A cluster of files that are likely to belong to the same album, from
src/models.rs. -/
structure AlbumCluster where
  album : String
  album_artist : String
  tracks : List AudioFile
  base_path : List String
  total_discs : Nat
deriving DecidableEq, Repr

/-- AlbumCluster::track_count from src/models.rs. -/
def AlbumCluster.track_count (c : AlbumCluster) : Nat :=
  c.tracks.length

/-- AlbumCluster::codec from src/models.rs: the codec shared by all files in
the cluster, if any. -/
def AlbumCluster.codec (c : AlbumCluster) : Option AudioCodec :=
  match c.tracks.head? with
  | none => none
  | some first_track =>
    let codec := first_track.codec
    if !(c.tracks.all (fun it => it.codec == codec)) then none
    else some codec

def UNKNOWN_ARTIST_NAME : String := "Unknown Artist"

def UNKNOWN_ALBUM_NAME : String := "Unknown Album"

def DEFAULT_TOTAL_DISCS : Nat := 1

/-- Grouping key from src/scanner/mod.rs. -/
structure ClusterKey where
  base_path : List String
  album_artist : String
  album : String
  total_discs : Nat
deriving DecidableEq, Repr

/-- ClusterKey::from_file from src/scanner/mod.rs. -/
def ClusterKey.from_file (file : AudioFile) : ClusterKey :=
  { base_path := file.path.dropLast
  , album_artist := file.album_artist.getD UNKNOWN_ARTIST_NAME
  , album := file.album.getD UNKNOWN_ALBUM_NAME
  , total_discs := file.total_discs.getD DEFAULT_TOTAL_DISCS }

/-- The sort key used on tracks inside a bucket:
(disc_number.unwrap_or(1), track_number.unwrap_or(0)). -/
def sortKey (f : AudioFile) : Nat × Nat :=
  (f.disc_number.getD 1, f.track_number.getD 0)

/-- Lexicographic comparison of track sort keys (Rust tuple Ord). -/
def trackLe (a b : AudioFile) : Bool :=
  decide ((sortKey a).1 < (sortKey b).1 ∨
    ((sortKey a).1 = (sortKey b).1 ∧ (sortKey a).2 ≤ (sortKey b).2))

/-- Insert a track into a list sorted by trackLe, before the first element it
compares ≤ to (stable insertion). -/
def insertTrack (x : AudioFile) : List AudioFile → List AudioFile
  | [] => [x]
  | y :: ys => if trackLe x y then x :: y :: ys else y :: insertTrack x ys

/-- Stable sort by sortKey, modelling tracks.sort_by_key in
src/scanner/mod.rs (Rust Vec::sort_by_key is stable). -/
def sortTracks : List AudioFile → List AudioFile
  | [] => []
  | x :: xs => insertTrack x (sortTracks xs)

/-- One step of the HashMap entry().or_default().push(file) loop in
cluster_files, on an association list of buckets: append the file to its
key's bucket, creating the bucket if absent. -/
def insertGroup (key : ClusterKey) (file : AudioFile) :
    List (ClusterKey × List AudioFile) → List (ClusterKey × List AudioFile)
  | [] => [(key, [file])]
  | (k, fs) :: rest =>
    if k = key then (k, fs ++ [file]) :: rest
    else (k, fs) :: insertGroup key file rest

/-- The grouping loop of cluster_files: bucket the files by their ClusterKey
(buckets in first-encounter order; the Rust HashMap iteration order is
unspecified and no claim depends on the order of the output clusters). -/
def groupFiles (files : List AudioFile) : List (ClusterKey × List AudioFile) :=
  files.foldl (fun acc file => insertGroup (ClusterKey.from_file file) file acc) []

/-- Build one AlbumCluster from a bucket, as in the map at the end of
cluster_files. -/
def mkCluster : ClusterKey × List AudioFile → AlbumCluster
  | (key, tracks) =>
    { album_artist := key.album_artist
    , album := key.album
    , tracks := sortTracks tracks
    , base_path := key.base_path
    , total_discs := key.total_discs }

/-- cluster_files from src/scanner/mod.rs. -/
def cluster_files (files : List AudioFile) : List AlbumCluster :=
  (groupFiles files).map mkCluster

/-- The grouping key an output cluster carries in its fields. -/
def clusterKeyOf (c : AlbumCluster) : ClusterKey :=
  { base_path := c.base_path
  , album_artist := c.album_artist
  , album := c.album
  , total_discs := c.total_discs }

/-! Properties of the stable sort. -/

theorem trackLe_total (a b : AudioFile) : trackLe a b = true ∨ trackLe b a = true := by
  simp only [trackLe, decide_eq_true_eq]
  omega

theorem trackLe_trans {a b c : AudioFile}
    (h1 : trackLe a b = true) (h2 : trackLe b c = true) : trackLe a c = true := by
  simp only [trackLe, decide_eq_true_eq] at h1 h2 ⊢
  omega

theorem trackLe_of_eq {a b : AudioFile} (h : sortKey a = sortKey b) :
    trackLe a b = true := by
  simp [trackLe, h]

theorem insertTrack_perm (x : AudioFile) (l : List AudioFile) :
    (insertTrack x l).Perm (x :: l) := by
  induction l with
  | nil => simp [insertTrack]
  | cons y ys ih =>
    simp only [insertTrack]
    by_cases h : trackLe x y = true
    · simp [h]
    · simp only [h, if_false]
      exact (ih.cons y).trans (List.Perm.swap x y ys)

theorem sortTracks_perm (l : List AudioFile) : (sortTracks l).Perm l := by
  induction l with
  | nil => simp [sortTracks]
  | cons x xs ih =>
    exact (insertTrack_perm x (sortTracks xs)).trans (ih.cons x)

theorem mem_sortTracks {x : AudioFile} {l : List AudioFile} :
    x ∈ sortTracks l ↔ x ∈ l :=
  (sortTracks_perm l).mem_iff

theorem insertTrack_pairwise {x : AudioFile} {l : List AudioFile}
    (hl : l.Pairwise (fun a b => trackLe a b = true)) :
    (insertTrack x l).Pairwise (fun a b => trackLe a b = true) := by
  induction l with
  | nil => simp [insertTrack]
  | cons y ys ih =>
    rcases List.pairwise_cons.mp hl with ⟨hy, hys⟩
    simp only [insertTrack]
    by_cases h : trackLe x y = true
    · simp only [h, if_true]
      refine List.pairwise_cons.mpr ⟨?_, hl⟩
      intro z hz
      rcases List.mem_cons.mp hz with hz | hz
      · exact hz ▸ h
      · exact trackLe_trans h (hy z hz)
    · simp only [h, if_false]
      refine List.pairwise_cons.mpr ⟨?_, ih hys⟩
      intro z hz
      rcases List.mem_cons.mp ((insertTrack_perm x ys).mem_iff.mp hz) with rfl | hz
      · rcases trackLe_total z y with h' | h'
        · exact absurd h' h
        · exact h'
      · exact hy z hz

theorem sortTracks_pairwise (l : List AudioFile) :
    (sortTracks l).Pairwise (fun a b => trackLe a b = true) := by
  induction l with
  | nil => simp [sortTracks]
  | cons x xs ih => exact insertTrack_pairwise ih

theorem filter_insertTrack (x : AudioFile) (l : List AudioFile) (k : Nat × Nat) :
    (insertTrack x l).filter (fun f => decide (sortKey f = k)) =
      if sortKey x = k then x :: l.filter (fun f => decide (sortKey f = k))
      else l.filter (fun f => decide (sortKey f = k)) := by
  induction l with
  | nil => by_cases hx : sortKey x = k <;> simp [insertTrack, hx]
  | cons y ys ih =>
    simp only [insertTrack]
    by_cases h : trackLe x y = true
    · simp only [h, if_true]
      by_cases hx : sortKey x = k <;> simp [List.filter_cons, hx]
    · simp only [h, if_false]
      by_cases hy : sortKey y = k
      · have hx : ¬ sortKey x = k := by
          intro hxk
          exact h (trackLe_of_eq (hxk.trans hy.symm))
        simp [List.filter_cons, hy, hx, ih]
      · simp [List.filter_cons, hy, ih]

theorem sortTracks_filter (l : List AudioFile) (k : Nat × Nat) :
    (sortTracks l).filter (fun f => decide (sortKey f = k)) =
      l.filter (fun f => decide (sortKey f = k)) := by
  induction l with
  | nil => rfl
  | cons x xs ih =>
    simp only [sortTracks, filter_insertTrack, ih]
    by_cases hx : sortKey x = k <;> simp [List.filter_cons, hx]

/-! Properties of the grouping loop. -/

def keysOf (gs : List (ClusterKey × List AudioFile)) : List ClusterKey :=
  gs.map Prod.fst

theorem keysOf_insertGroup (k0 : ClusterKey) (f : AudioFile) (acc : List (ClusterKey × List AudioFile)) :
    keysOf (insertGroup k0 f acc) =
      if k0 ∈ keysOf acc then keysOf acc else keysOf acc ++ [k0] := by
  induction acc with
  | nil => simp [insertGroup, keysOf]
  | cons g rest ih =>
    obtain ⟨k, fs⟩ := g
    by_cases hk : k = k0
    · subst hk
      simp [insertGroup, keysOf]
    · have h1 : keysOf ((k, fs) :: insertGroup k0 f rest) =
          k :: keysOf (insertGroup k0 f rest) := rfl
      have h2 : keysOf ((k, fs) :: rest) = k :: keysOf rest := rfl
      have h3 : (k0 ∈ k :: keysOf rest) ↔ k0 ∈ keysOf rest := by
        constructor
        · intro h
          rcases List.mem_cons.mp h with h | h
          · exact absurd h.symm hk
          · exact h
        · exact List.mem_cons_of_mem k
      simp only [insertGroup, hk, if_false, h1, ih, h2]
      by_cases h0 : k0 ∈ keysOf rest
      · rw [if_pos h0, if_pos (h3.mpr h0)]
      · rw [if_neg h0, if_neg (fun h => h0 (h3.mp h))]
        rfl

theorem mem_insertGroup {k0 : ClusterKey} {f : AudioFile}
    {acc : List (ClusterKey × List AudioFile)} {g : ClusterKey × List AudioFile}
    (hnd : (keysOf acc).Nodup) (hg : g ∈ insertGroup k0 f acc) :
    (g ∈ acc ∧ g.1 ≠ k0) ∨
    (∃ fs, (k0, fs) ∈ acc ∧ g = (k0, fs ++ [f])) ∨
    (k0 ∉ keysOf acc ∧ g = (k0, [f])) := by
  induction acc with
  | nil =>
    simp only [insertGroup, List.mem_singleton] at hg
    exact Or.inr (Or.inr ⟨by simp [keysOf], hg⟩)
  | cons p rest ih =>
    obtain ⟨k, fs⟩ := p
    have hnd' : (keysOf rest).Nodup := by
      simp only [keysOf, List.map_cons, List.nodup_cons] at hnd
      exact hnd.2
    have hknotin : k ∉ keysOf rest := by
      simp only [keysOf, List.map_cons, List.nodup_cons] at hnd
      exact hnd.1
    simp only [insertGroup] at hg
    by_cases hk : k = k0
    · subst hk
      simp only [if_true] at hg
      rcases List.mem_cons.mp hg with hg | hg
      · exact Or.inr (Or.inl ⟨fs, List.mem_cons_self _ _, hg⟩)
      · refine Or.inl ⟨List.mem_cons_of_mem _ hg, ?_⟩
        intro h1
        exact hknotin (h1 ▸ List.mem_map_of_mem Prod.fst hg)
    · simp only [hk, if_false] at hg
      rcases List.mem_cons.mp hg with hg | hg
      · exact Or.inl ⟨hg ▸ List.mem_cons_self _ _, by simp [hg, hk]⟩
      · rcases ih hnd' hg with ⟨h1, h2⟩ | ⟨fs', h1, h2⟩ | ⟨h1, h2⟩
        · exact Or.inl ⟨List.mem_cons_of_mem _ h1, h2⟩
        · exact Or.inr (Or.inl ⟨fs', List.mem_cons_of_mem _ h1, h2⟩)
        · refine Or.inr (Or.inr ⟨?_, h2⟩)
          simp only [keysOf, List.map_cons, List.mem_cons]
          rintro (h | h)
          · exact hk h.symm
          · exact h1 h

/-- Invariant of the grouping loop after processing the files in done:
every bucket holds exactly the done-files with its key in input order, the
bucket keys are distinct, and every processed file's key has a bucket. -/
def GroupInv (done : List AudioFile) (acc : List (ClusterKey × List AudioFile)) : Prop :=
  (∀ g ∈ acc, g.2 = done.filter (fun f => decide (ClusterKey.from_file f = g.1))) ∧
  (keysOf acc).Nodup ∧
  (∀ f ∈ done, ClusterKey.from_file f ∈ keysOf acc)

theorem groupInv_step {done : List AudioFile} {acc : List (ClusterKey × List AudioFile)}
    (file : AudioFile) (h : GroupInv done acc) :
    GroupInv (done ++ [file]) (insertGroup (ClusterKey.from_file file) file acc) := by
  obtain ⟨hbuckets, hnd, hcover⟩ := h
  refine ⟨?_, ?_, ?_⟩
  · intro g hg
    rcases mem_insertGroup hnd hg with ⟨hga, hgne⟩ | ⟨fs, hmem, rfl⟩ | ⟨hnotin, rfl⟩
    · rw [List.filter_append]
      have hne : ¬ (ClusterKey.from_file file = g.1) := fun hh => hgne (hh.symm)
      have hemp : List.filter (fun f => decide (ClusterKey.from_file f = g.1)) [file] = [] := by
        simp [List.filter_cons, hne]
      rw [hemp, List.append_nil]
      exact hbuckets g hga
    · have hfs := hbuckets (ClusterKey.from_file file, fs) hmem
      simp only at hfs
      rw [List.filter_append]
      have hone : List.filter
          (fun f => decide (ClusterKey.from_file f = ClusterKey.from_file file)) [file]
          = [file] := by
        simp [List.filter_cons]
      simp only
      rw [hone, hfs]
    · have hemp : List.filter
          (fun f => decide (ClusterKey.from_file f = ClusterKey.from_file file)) done = [] := by
        rw [List.filter_eq_nil_iff]
        intro a ha
        simp only [decide_eq_true_eq]
        intro hkey
        exact hnotin (hkey ▸ hcover a ha)
      have hone : List.filter
          (fun f => decide (ClusterKey.from_file f = ClusterKey.from_file file)) [file]
          = [file] := by
        simp [List.filter_cons]
      simp only
      rw [List.filter_append, hemp, hone, List.nil_append]
  · rw [keysOf_insertGroup]
    by_cases h0 : ClusterKey.from_file file ∈ keysOf acc
    · rw [if_pos h0]
      exact hnd
    · rw [if_neg h0]
      simp only [List.nodup_append, List.nodup_cons, List.not_mem_nil, not_false_iff,
        List.nodup_nil, and_true, true_and]
      refine ⟨hnd, ?_⟩
      intro a ha
      simp only [List.mem_singleton]
      intro hq
      exact h0 (hq ▸ ha)
  · intro f hf
    rw [keysOf_insertGroup]
    rcases List.mem_append.mp hf with hf | hf
    · have hin := hcover f hf
      by_cases h0 : ClusterKey.from_file file ∈ keysOf acc
      · rw [if_pos h0]
        exact hin
      · rw [if_neg h0]
        exact List.mem_append_left _ hin
    · rw [List.mem_singleton.mp hf]
      by_cases h0 : ClusterKey.from_file file ∈ keysOf acc
      · rw [if_pos h0]
        exact h0
      · rw [if_neg h0]
        exact List.mem_append_right _ (List.mem_singleton_self _)

theorem groupInv_foldl (files : List AudioFile) :
    ∀ (done : List AudioFile) (acc : List (ClusterKey × List AudioFile)),
      GroupInv done acc →
      GroupInv (done ++ files)
        (files.foldl (fun a file => insertGroup (ClusterKey.from_file file) file a) acc) := by
  induction files with
  | nil =>
    intro done acc h
    simpa using h
  | cons f fs ih =>
    intro done acc h
    have h2 := ih (done ++ [f]) _ (groupInv_step f h)
    simpa [List.foldl_cons, List.append_assoc] using h2

theorem groupFiles_spec (files : List AudioFile) : GroupInv files (groupFiles files) := by
  have h0 : GroupInv [] [] := ⟨by simp, by simp [keysOf], by simp⟩
  have h := groupInv_foldl files [] [] h0
  simpa [groupFiles] using h

theorem groupFiles_bucket {files : List AudioFile} {g : ClusterKey × List AudioFile}
    (hg : g ∈ groupFiles files) :
    g.2 = files.filter (fun f => decide (ClusterKey.from_file f = g.1)) :=
  (groupFiles_spec files).1 g hg

theorem groupFiles_nodup (files : List AudioFile) : (keysOf (groupFiles files)).Nodup :=
  (groupFiles_spec files).2.1

theorem groupFiles_cover {files : List AudioFile} {f : AudioFile} (hf : f ∈ files) :
    ClusterKey.from_file f ∈ keysOf (groupFiles files) :=
  (groupFiles_spec files).2.2 f hf

theorem insertGroup_flatten (k0 : ClusterKey) (f : AudioFile)
    (acc : List (ClusterKey × List AudioFile)) :
    ((insertGroup k0 f acc).flatMap Prod.snd).Perm (f :: acc.flatMap Prod.snd) := by
  induction acc with
  | nil => simp [insertGroup]
  | cons g rest ih =>
    obtain ⟨k, fs⟩ := g
    by_cases hk : k = k0
    · simp only [insertGroup, if_pos hk, List.flatMap_cons, List.append_assoc,
        List.singleton_append]
      exact List.perm_middle
    · simp only [insertGroup, if_neg hk, List.flatMap_cons]
      exact (List.Perm.append_left fs ih).trans List.perm_middle

theorem foldl_flatten (files : List AudioFile) :
    ∀ acc : List (ClusterKey × List AudioFile),
      ((files.foldl (fun a file => insertGroup (ClusterKey.from_file file) file a) acc).flatMap
          Prod.snd).Perm
        (acc.flatMap Prod.snd ++ files) := by
  induction files with
  | nil =>
    intro acc
    simp
  | cons f fs ih =>
    intro acc
    simp only [List.foldl_cons]
    refine (ih (insertGroup (ClusterKey.from_file f) f acc)).trans ?_
    refine (List.Perm.append_right fs (insertGroup_flatten (ClusterKey.from_file f) f acc)).trans ?_
    exact List.perm_middle.symm

theorem mkCluster_tracks (g : ClusterKey × List AudioFile) :
    (mkCluster g).tracks = sortTracks g.2 := by
  obtain ⟨k, fs⟩ := g
  rfl

theorem mkCluster_key (g : ClusterKey × List AudioFile) :
    clusterKeyOf (mkCluster g) = g.1 := by
  obtain ⟨k, fs⟩ := g
  rfl

/-- C1: the clusters returned by cluster_files partition the input exactly:
the concatenation of all output clusters' track lists is a permutation of the
input list (same multiset — no record duplicated, none dropped). -/
theorem cluster_files_partition (files : List AudioFile) :
    ((cluster_files files).flatMap AlbumCluster.tracks).Perm files := by
  have h2 : ∀ gs : List (ClusterKey × List AudioFile),
      ((gs.map mkCluster).flatMap AlbumCluster.tracks).Perm (gs.flatMap Prod.snd) := by
    intro gs
    induction gs with
    | nil => simp
    | cons g rest ih =>
      obtain ⟨k, fs⟩ := g
      simp only [List.map_cons, List.flatMap_cons]
      exact List.Perm.append (sortTracks_perm fs) ih
  have h3 := foldl_flatten files []
  simp only [List.flatMap_nil, List.nil_append] at h3
  exact (h2 (groupFiles files)).trans (by simpa [groupFiles] using h3)

/-- C2: within each cluster emitted by cluster_files, the track list is
non-decreasing in (disc-or-1, track-or-0), and for every effective sort key
the subsequence of tracks with that key is a sublist of the input (records
with equal keys keep their input relative order: the sort is stable). -/
theorem cluster_files_sorted_stable (files : List AudioFile) (c : AlbumCluster)
    (hc : c ∈ cluster_files files) (k : Nat × Nat) :
    c.tracks.Pairwise (fun a b => trackLe a b = true) ∧
    (c.tracks.filter (fun f => decide (sortKey f = k))).Sublist files := by
  rcases List.mem_map.mp hc with ⟨grp, hgrp, rfl⟩
  rw [mkCluster_tracks]
  refine ⟨sortTracks_pairwise _, ?_⟩
  rw [sortTracks_filter, groupFiles_bucket hgrp]
  exact (List.filter_sublist _).trans (List.filter_sublist files)

/-- C3: cluster_files groups by exact ClusterKey equality: records with the
same key always share a cluster, every record in a cluster carries the
cluster's key (so records with different keys are in different clusters),
and no two output clusters share a key. -/
theorem cluster_files_grouping (files : List AudioFile) :
    (∀ f g, f ∈ files → g ∈ files → ClusterKey.from_file f = ClusterKey.from_file g →
      ∃ c, c ∈ cluster_files files ∧ f ∈ c.tracks ∧ g ∈ c.tracks) ∧
    (∀ c, c ∈ cluster_files files → ∀ f, f ∈ c.tracks →
      ClusterKey.from_file f = clusterKeyOf c) ∧
    ((cluster_files files).map clusterKeyOf).Nodup := by
  refine ⟨?_, ?_, ?_⟩
  · intro f g hf hg hkey
    rcases List.mem_map.mp (groupFiles_cover hf) with ⟨grp, hgrp, hfst⟩
    refine ⟨mkCluster grp, List.mem_map_of_mem mkCluster hgrp, ?_, ?_⟩
    · rw [mkCluster_tracks, mem_sortTracks, groupFiles_bucket hgrp, List.mem_filter]
      exact ⟨hf, by simp [hfst]⟩
    · rw [mkCluster_tracks, mem_sortTracks, groupFiles_bucket hgrp, List.mem_filter]
      exact ⟨hg, by simp [hfst, hkey]⟩
  · intro c hc f hf
    rcases List.mem_map.mp hc with ⟨grp, hgrp, rfl⟩
    rw [mkCluster_tracks, mem_sortTracks, groupFiles_bucket hgrp, List.mem_filter] at hf
    have hkey := hf.2
    simp only [decide_eq_true_eq] at hkey
    rw [mkCluster_key]
    exact hkey
  · have hmap : (cluster_files files).map clusterKeyOf = keysOf (groupFiles files) := by
      simp only [cluster_files, List.map_map, keysOf]
      exact List.map_congr_left (fun g _ => mkCluster_key g)
    rw [hmap]
    exact groupFiles_nodup files

/-- C10: AlbumCluster.codec returns some cod exactly when the track list is
non-empty and every track's codec is cod; in particular it is none on an
empty track list and none when two tracks differ in codec. -/
theorem codec_spec (c : AlbumCluster) (cod : AudioCodec) :
    c.codec = some cod ↔ (c.tracks ≠ [] ∧ ∀ t ∈ c.tracks, t.codec = cod) := by
  cases htr : c.tracks with
  | nil => simp [AlbumCluster.codec, htr]
  | cons t ts =>
    simp only [AlbumCluster.codec, htr, List.head?_cons]
    constructor
    · intro h
      by_cases hall : ((t :: ts).all fun it => it.codec == t.codec) = true
      · rw [hall] at h
        simp only [Bool.not_true, Bool.false_eq_true, if_false, Option.some.injEq] at h
        refine ⟨by simp, ?_⟩
        intro x hx
        have hx2 := List.all_eq_true.mp hall x hx
        rw [beq_iff_eq] at hx2
        rw [hx2, h]
      · have hfalse : ((t :: ts).all fun it => it.codec == t.codec) = false := by
          revert hall
          cases ((t :: ts).all fun it => it.codec == t.codec) <;> simp
        rw [hfalse] at h
        simp at h
    · rintro ⟨-, hall⟩
      have ht : t.codec = cod := hall t (List.mem_cons_self t ts)
      have hAll : ((t :: ts).all fun it => it.codec == cod) = true := by
        rw [List.all_eq_true]
        intro x hx
        rw [beq_iff_eq]
        exact hall x hx
      simp only [ht, hAll, Bool.not_true, Bool.false_eq_true, if_false]

/-! Concrete sample data used to instantiate the hypothesis-bearing theorems. -/

/-- Sample track 2 of an album (artist X, album Y). -/
def fileA : AudioFile :=
  { path := ["music", "album1", "t2.mp3"], codec := AudioCodec.mp3, title := none,
    artist := none, album_artist := some "X", album := some "Y", track_number := some 2,
    total_tracks := none, disc_number := none, total_discs := none, genre := none,
    duration := none }

/-- Sample track 1 of the same album as fileA. -/
def fileB : AudioFile :=
  { path := ["music", "album1", "t1.mp3"], codec := AudioCodec.mp3, title := none,
    artist := none, album_artist := some "X", album := some "Y", track_number := some 1,
    total_tracks := none, disc_number := none, total_discs := none, genre := none,
    duration := none }

/-- The cluster cluster_files builds from [fileA, fileB]. -/
def clusterAB : AlbumCluster :=
  { album := "Y", album_artist := "X", tracks := [fileB, fileA],
    base_path := ["music", "album1"], total_discs := 1 }

theorem cluster_files_sorted_stable_witness :
    clusterAB.tracks.Pairwise (fun a b => trackLe a b = true) ∧
    (clusterAB.tracks.filter (fun f => decide (sortKey f = (1, 1)))).Sublist [fileA, fileB] :=
  cluster_files_sorted_stable [fileA, fileB] clusterAB (by decide) (1, 1)

theorem cluster_files_grouping_witness :
    ∃ c, c ∈ cluster_files [fileA, fileB] ∧ fileA ∈ c.tracks ∧ fileB ∈ c.tracks :=
  (cluster_files_grouping [fileA, fileB]).1 fileA fileB (by decide) (by decide) (by decide)

/-! Orchestrator model, from src/app.rs. -/

/-- Candidate match returned by the external catalog (musicbrainz_rs Release);
modelled abstractly by the fields the UI consumes. -/
structure Release where
  title : String
  date : Option String
  country : Option String
  track_count : Nat
deriving DecidableEq, Repr

/-- A (cluster, candidates) pair awaiting user review, from src/app.rs. -/
structure PendingCluster where
  cluster : AlbumCluster
  results : List Release
deriving DecidableEq, Repr

/-- Application state variants, from src/app.rs. -/
inductive AppState where
  | scanning (path : List String) (files_found : List AudioFile)
      (current_file : Option String) (is_complete : Bool)
  | autoTagging (cluster : AlbumCluster) (results : List Release) (selected_idx : Nat)
  | clusterList (clusters : List AlbumCluster) (selected_idx : Nat)
  | error (message : String)
deriving DecidableEq, Repr

def AppState.isScanning : AppState → Bool
  | .scanning _ _ _ _ => true
  | _ => false

def AppState.isAutoTagging : AppState → Bool
  | .autoTagging _ _ _ => true
  | _ => false

def AppState.isError : AppState → Bool
  | .error _ => true
  | _ => false

/-- Walker progress event, from src/scanner/mod.rs. -/
structure ScanProgress where
  current_dir : String
  clusters_found : Nat
deriving DecidableEq, Repr

/-- Scan completion/failure message, from src/app.rs. -/
inductive ScanMessage where
  | complete (files : List AudioFile)
  | error (msg : String)
deriving DecidableEq, Repr

/-- Lookup stage events, from src/musicbrainz/search.rs. -/
inductive SearchMessage where
  | searching (cluster : AlbumCluster) (status : String)
  | results (cluster : AlbumCluster) (releases : List Release)
  | noResults (cluster : AlbumCluster)
  | error (cluster : AlbumCluster) (msg : String)
deriving DecidableEq, Repr

/-- The App struct from src/app.rs. The three receiver fields are modelled by
booleans recording whether the corresponding channel receiver was ever
assigned (App::new leaves all three None; start_scan assigns only the
progress and search receivers — scan_rx is never assigned anywhere). -/
structure App where
  pending_clusters : List PendingCluster
  state : AppState
  should_quit : Bool
  scan_rx_connected : Bool
  scan_progress_rx_connected : Bool
  search_rx_connected : Bool
deriving DecidableEq, Repr

/-- App::new from src/app.rs. -/
def App.new (path : List String) : App :=
  { pending_clusters := []
  , state := AppState.scanning path [] none false
  , should_quit := false
  , scan_rx_connected := false
  , scan_progress_rx_connected := false
  , search_rx_connected := false }

/-- App::start_scan from src/app.rs: spawns the walker and lookup threads and
stores the progress and search receivers; no ScanMessage channel is created
and self.scan_rx is never assigned. -/
def App.start_scan (app : App) : App :=
  match app.state with
  | AppState.scanning _ _ _ _ =>
    { app with scan_progress_rx_connected := true, search_rx_connected := true }
  | _ => app

/-- App::show_next_cluster from src/app.rs: pops the front of the pending
FIFO, if any, and presents it; a no-op when the FIFO is empty. -/
def App.show_next_cluster (app : App) : App :=
  match app.pending_clusters with
  | [] => app
  | p :: rest =>
    { app with pending_clusters := rest
             , state := AppState.autoTagging p.cluster p.results 0 }

/-- App::handle_apply from src/app.rs (persistence is a TODO placeholder). -/
def App.handle_apply (app : App) : App :=
  app.show_next_cluster

/-- App::handle_skip from src/app.rs. -/
def App.handle_skip (app : App) : App :=
  app.show_next_cluster

/-- App::handle_manual_search from src/app.rs (prompt is a TODO placeholder). -/
def App.handle_manual_search (app : App) : App :=
  app.show_next_cluster

/-- App::select_next_match from src/app.rs. -/
def App.select_next_match (app : App) : App :=
  match app.state with
  | AppState.autoTagging cluster results selected_idx =>
    if results.isEmpty then app
    else { app with state :=
      AppState.autoTagging cluster results (min (selected_idx + 1) (results.length - 1)) }
  | _ => app

/-- App::select_previous_match from src/app.rs. -/
def App.select_previous_match (app : App) : App :=
  match app.state with
  | AppState.autoTagging cluster results selected_idx =>
    if results.isEmpty then app
    else { app with state := AppState.autoTagging cluster results (selected_idx - 1) }
  | _ => app

/-- App::select_next from src/app.rs. -/
def App.select_next (app : App) : App :=
  match app.state with
  | AppState.clusterList clusters selected_idx =>
    if clusters.isEmpty then app
    else { app with state :=
      AppState.clusterList clusters (min (selected_idx + 1) (clusters.length - 1)) }
  | _ => app

/-- App::select_previous from src/app.rs (unguarded saturating_sub). -/
def App.select_previous (app : App) : App :=
  match app.state with
  | AppState.clusterList clusters selected_idx =>
    { app with state := AppState.clusterList clusters (selected_idx - 1) }
  | _ => app

/-- App::complete_scan from src/app.rs. -/
def App.complete_scan (app : App) (files : List AudioFile) : App :=
  match app.state with
  | AppState.scanning path _ _ _ =>
    { app with state := AppState.scanning path files none true }
  | _ => app

/-- App::set_error from src/app.rs. -/
def App.set_error (app : App) (message : String) : App :=
  { app with state := AppState.error message }

/-- Overwrite current_file when the state is Scanning, as each status-only
message arm of handle_messages does; otherwise leave the app unchanged. -/
def updateScanningStatus (app : App) (status : String) : App :=
  match app.state with
  | AppState.scanning path files _ complete =>
    { app with state := AppState.scanning path files (some status) complete }
  | _ => app

/-- One ScanProgress message as processed by the first loop of
App::handle_messages in src/app.rs. -/
def applyProgress (app : App) (p : ScanProgress) : App :=
  updateScanningStatus app
    ("Scanning: " ++ p.current_dir ++ " (" ++ toString p.clusters_found ++ " clusters found)")

/-- One SearchMessage as processed by the second loop of App::handle_messages
in src/app.rs. -/
def applySearchMessage (app : App) (m : SearchMessage) : App :=
  match m with
  | SearchMessage.searching _ status =>
    updateScanningStatus app ("🔍 " ++ status)
  | SearchMessage.results cluster releases =>
    let app2 := { app with pending_clusters :=
      app.pending_clusters ++ [({ cluster := cluster, results := releases } : PendingCluster)] }
    match app2.state with
    | AppState.autoTagging _ _ _ => app2
    | _ => app2.show_next_cluster
  | SearchMessage.noResults cluster =>
    updateScanningStatus app
      ("∅ No matches for " ++ cluster.album_artist ++ " - " ++ cluster.album)
  | SearchMessage.error _ msg =>
    updateScanningStatus app ("⚠ Error: " ++ msg)

/-- One ScanMessage as processed by the final try_recv of
App::handle_messages in src/app.rs. -/
def applyScanMessage (app : App) (m : ScanMessage) : App :=
  match m with
  | ScanMessage.complete files => app.complete_scan files
  | ScanMessage.error msg => app.set_error msg

/-- App::handle_messages from src/app.rs: drain all available progress
messages, then all available search messages in arrival order, then poll at
most one scan message; each channel is read only if its receiver was
assigned. -/
def App.handle_messages (app : App) (progressMsgs : List ScanProgress)
    (searchMsgs : List SearchMessage) (scanMsg : Option ScanMessage) : App :=
  let app1 := if app.scan_progress_rx_connected
    then progressMsgs.foldl applyProgress app else app
  let app2 := if app1.search_rx_connected
    then searchMsgs.foldl applySearchMessage app1 else app1
  if app2.scan_rx_connected then
    match scanMsg with
    | some m => applyScanMessage app2 m
    | none => app2
  else app2

/-- Terminal key codes relevant to the app, after crossterm. -/
inductive KeyCode where
  | char (c : Char)
  | up
  | down
  | enter
  | other
deriving DecidableEq, Repr

/-- A key event with its control-modifier flag. -/
structure KeyEvent where
  code : KeyCode
  ctrl : Bool
deriving DecidableEq, Repr

/-- App::handle_events from src/app.rs, for one key event. Returns none for
the ClusterList × Enter arm, which is an unimplemented todo!() panic in the
source. -/
def App.handle_events (app : App) (key : KeyEvent) : Option App :=
  let is_ctrl_c := (key.code == KeyCode.char 'c') && key.ctrl
  let quit_requested := is_ctrl_c || (key.code == KeyCode.char 'q')
  if quit_requested then some { app with should_quit := true }
  else
    match app.state with
    | AppState.scanning _ files_found _ is_complete =>
      if key.code == KeyCode.enter && is_complete then
        some { app with state := AppState.clusterList (cluster_files files_found) 0 }
      else some app
    | AppState.autoTagging _ _ _ =>
      match key.code with
      | KeyCode.char c =>
        if c = 'k' then some app.select_previous_match
        else if c = 'j' then some app.select_next_match
        else if c = 'A' then some app.handle_apply
        else if c = 's' then some app.handle_skip
        else if c = 'M' then some app.handle_manual_search
        else some app
      | KeyCode.up => some app.select_previous_match
      | KeyCode.down => some app.select_next_match
      | _ => some app
    | AppState.clusterList _ _ =>
      match key.code with
      | KeyCode.up => some app.select_previous
      | KeyCode.down => some app.select_next
      | KeyCode.char c =>
        if c = 'k' then some app.select_previous
        else if c = 'j' then some app.select_next
        else some app
      | KeyCode.enter => none
      | _ => some app
    | AppState.error _ => some app

/-- An app reviewing a cluster in AutoTagging with an empty pending FIFO. -/
def appAutoTagEmpty : App :=
  { pending_clusters := []
  , state := AppState.autoTagging clusterAB [] 0
  , should_quit := false
  , scan_rx_connected := false
  , scan_progress_rx_connected := true
  , search_rx_connected := true }

/-- C4 counterexample: with an empty pending FIFO, the apply input in
AutoTagging does not dismiss the current review and does not transition to
Scanning — the app is returned unchanged, still in AutoTagging. -/
theorem autotagging_empty_fifo_cex :
    App.handle_events appAutoTagEmpty { code := KeyCode.char 'A', ctrl := false }
      = some appAutoTagEmpty ∧
    appAutoTagEmpty.state.isScanning = false :=
  ⟨rfl, rfl⟩

/-- C4 (amended): in AutoTagging, apply/skip/manual-search run
show_next_cluster: with a non-empty pending FIFO the front entry is dequeued
and shown with selection index 0; with an empty FIFO the input is a no-op
(the same cluster stays under review; there is no transition to Scanning). -/
theorem autotagging_dismissal (app : App) (cluster : AlbumCluster)
    (results : List Release) (idx : Nat) (key : KeyEvent)
    (hstate : app.state = AppState.autoTagging cluster results idx)
    (hkey : key.code = KeyCode.char 'A' ∨ key.code = KeyCode.char 's' ∨
      key.code = KeyCode.char 'M') :
    App.handle_events app key = some app.show_next_cluster ∧
    (app.pending_clusters = [] → app.show_next_cluster = app) ∧
    (∀ p rest, app.pending_clusters = p :: rest →
      app.show_next_cluster =
        { app with pending_clusters := rest
                 , state := AppState.autoTagging p.cluster p.results 0 }) := by
  obtain ⟨code, ctl⟩ := key
  dsimp only at hkey
  refine ⟨?_, ?_, ?_⟩
  · rcases hkey with rfl | rfl | rfl <;>
      simp [App.handle_events, hstate, App.handle_apply, App.handle_skip,
        App.handle_manual_search]
  · intro h
    simp [App.show_next_cluster, h]
  · intro p rest h
    simp [App.show_next_cluster, h]

/-- The pending entry used in the C4 witness. -/
def pendAB : PendingCluster := { cluster := clusterAB, results := [] }

/-- An app in AutoTagging with one queued pending entry. -/
def appAutoTagQueued : App :=
  { pending_clusters := [pendAB]
  , state := AppState.autoTagging clusterAB [] 0
  , should_quit := false
  , scan_rx_connected := false
  , scan_progress_rx_connected := true
  , search_rx_connected := true }

theorem autotagging_dismissal_witness :
    App.handle_events appAutoTagQueued { code := KeyCode.char 's', ctrl := false }
      = some appAutoTagQueued.show_next_cluster ∧
    appAutoTagQueued.show_next_cluster =
      { appAutoTagQueued with
          pending_clusters := []
        , state := AppState.autoTagging pendAB.cluster pendAB.results 0 } :=
  ⟨(autotagging_dismissal appAutoTagQueued clusterAB [] 0
      { code := KeyCode.char 's', ctrl := false } rfl (Or.inr (Or.inl rfl))).1,
   (autotagging_dismissal appAutoTagQueued clusterAB [] 0
      { code := KeyCode.char 's', ctrl := false } rfl (Or.inr (Or.inl rfl))).2.2
      pendAB [] rfl⟩

/-- C6: a Results event appends to the back of the pending FIFO; while a
cluster is under review it only queues; while no cluster is under review the
front of the queue is immediately dequeued and presented with selection
index 0; and each dismissal presents the earliest-queued remaining entry. -/
theorem pending_fifo (app : App) (cluster : AlbumCluster) (releases : List Release) :
    (∀ c rs i, app.state = AppState.autoTagging c rs i →
      applySearchMessage app (SearchMessage.results cluster releases) =
        { app with pending_clusters := app.pending_clusters ++
            [({ cluster := cluster, results := releases } : PendingCluster)] }) ∧
    (app.state.isAutoTagging = false → app.pending_clusters = [] →
      applySearchMessage app (SearchMessage.results cluster releases) =
        { app with pending_clusters := []
                 , state := AppState.autoTagging cluster releases 0 }) ∧
    (∀ p rest, app.state.isAutoTagging = false → app.pending_clusters = p :: rest →
      applySearchMessage app (SearchMessage.results cluster releases) =
        { app with pending_clusters := rest ++
            [({ cluster := cluster, results := releases } : PendingCluster)]
                 , state := AppState.autoTagging p.cluster p.results 0 }) ∧
    (∀ p rest, app.pending_clusters = p :: rest →
      app.show_next_cluster =
        { app with pending_clusters := rest
                 , state := AppState.autoTagging p.cluster p.results 0 }) := by
  obtain ⟨pend, st, sq, w1, w2, w3⟩ := app
  refine ⟨?_, ?_, ?_, ?_⟩
  · intro c rs i hstate
    dsimp only at hstate
    subst hstate
    simp [applySearchMessage]
  · intro hA hP
    dsimp only at hA hP
    subst hP
    cases st <;> simp_all [applySearchMessage, App.show_next_cluster, AppState.isAutoTagging]
  · intro p rest hA hP
    dsimp only at hA hP
    subst hP
    cases st <;> simp_all [applySearchMessage, App.show_next_cluster, AppState.isAutoTagging]
  · intro p rest hP
    dsimp only at hP
    subst hP
    simp [App.show_next_cluster]

theorem pending_fifo_witness :
    applySearchMessage appAutoTagEmpty (SearchMessage.results clusterAB []) =
      { appAutoTagEmpty with pending_clusters :=
          [({ cluster := clusterAB, results := [] } : PendingCluster)] } :=
  (pending_fifo appAutoTagEmpty clusterAB []).1 clusterAB [] 0 rfl

/-! Lookup stage, from src/musicbrainz/search.rs. -/

/-- search_for_cluster from src/musicbrainz/search.rs: the messages sent for
one cluster, given the outcome of client.search_release: a Searching status
first, then exactly one of NoResults (success with zero candidates), Results
(success with candidates, order as returned), or Error (failure). -/
def search_for_cluster (outcome : Except String (List Release))
    (cluster : AlbumCluster) : List SearchMessage :=
  SearchMessage.searching cluster
      ("Searching for " ++ cluster.album_artist ++ " - " ++ cluster.album ++ "...")
    :: match outcome with
       | Except.ok releases =>
         if releases.isEmpty then [SearchMessage.noResults cluster]
         else [SearchMessage.results cluster releases]
       | Except.error e => [SearchMessage.error cluster ("Search failed: " ++ e)]

/-- The lookup worker loop spawned in App::start_scan (src/app.rs): it drains
the cluster channel one cluster at a time and runs search_for_cluster on
each, continuing with the next cluster regardless of the previous outcome. -/
def lookupWorker (inputs : List (AlbumCluster × Except String (List Release))) :
    List SearchMessage :=
  inputs.flatMap (fun it => search_for_cluster it.2 it.1)

/-- C8: a lookup succeeding with zero candidates sends a NoResults event (not
Results, not Error); processing NoResults leaves the pending queue untouched,
never switches the app into AutoTagging, only rewrites the Scanning status
text (and is a no-op outside Scanning); and the worker loop proceeds to the
next queued cluster afterwards. -/
theorem no_results_handling (cluster : AlbumCluster) (app : App) :
    search_for_cluster (Except.ok []) cluster =
      [SearchMessage.searching cluster
        ("Searching for " ++ cluster.album_artist ++ " - " ++ cluster.album ++ "..."),
       SearchMessage.noResults cluster] ∧
    (applySearchMessage app (SearchMessage.noResults cluster)).pending_clusters =
      app.pending_clusters ∧
    (applySearchMessage app (SearchMessage.noResults cluster)).state.isAutoTagging =
      app.state.isAutoTagging ∧
    (∀ path files cf complete, app.state = AppState.scanning path files cf complete →
      applySearchMessage app (SearchMessage.noResults cluster) =
        { app with state := (AppState.scanning path files
            (some ("∅ No matches for " ++ cluster.album_artist ++ " - " ++ cluster.album))
            complete) }) ∧
    (app.state.isScanning = false →
      applySearchMessage app (SearchMessage.noResults cluster) = app) ∧
    (∀ rest, lookupWorker ((cluster, Except.ok []) :: rest) =
      search_for_cluster (Except.ok []) cluster ++ lookupWorker rest) := by
  obtain ⟨pend, st, sq, w1, w2, w3⟩ := app
  refine ⟨rfl, ?_, ?_, ?_, ?_, ?_⟩
  · cases st <;> rfl
  · cases st <;> rfl
  · intro path files cf complete hstate
    dsimp only at hstate
    subst hstate
    rfl
  · intro hs
    dsimp only [AppState.isScanning] at hs
    cases st <;> simp_all <;> rfl
  · intro rest
    rfl

/-- The app right after App::new + App::start_scan on scan root [music]. -/
def appScanning : App := App.start_scan (App.new ["music"])

theorem no_results_handling_witness :
    applySearchMessage appScanning (SearchMessage.noResults clusterAB) =
      { appScanning with state := (AppState.scanning ["music"] []
          (some ("∅ No matches for " ++ clusterAB.album_artist ++ " - " ++ clusterAB.album))
          false) } :=
  (no_results_handling clusterAB appScanning).2.2.2.1 ["music"] [] none false rfl

/-! Rate-limited client, from src/musicbrainz/client.rs. Monotonic time is in
milliseconds; RATE_LIMIT is Duration::from_secs(1). -/

def RATE_LIMIT : Nat := 1000

/-- The Client struct from src/musicbrainz/client.rs. -/
structure Client where
  last_request : Option Nat
deriving DecidableEq, Repr

/-- Client::new from src/musicbrainz/client.rs. -/
def Client.new : Client := { last_request := none }

/-- Client::throttle from src/musicbrainz/client.rs. now is the monotonic
time at which last.elapsed() is read; d models the extra scheduler delay
between the end of the sleep and the Instant::now() that is stored in
last_request. Returns the sleep duration and the updated client; the stored
last_request is the issue timestamp of the request that follows. -/
def Client.throttle (c : Client) (now d : Nat) : Nat × Client :=
  match c.last_request with
  | none => (0, { last_request := some (now + d) })
  | some last =>
    let elapsed := now - last
    if elapsed < RATE_LIMIT then
      let wait := RATE_LIMIT - elapsed
      (wait, { last_request := some (now + wait + d) })
    else
      (0, { last_request := some (now + d) })

/-- The issue timestamps produced by a sequence of search_release calls, one
(now, extra-delay) pair per call; each call runs throttle first and the
recorded last_request is that lookup's issue timestamp. -/
def issueTimes (c : Client) : List (Nat × Nat) → List Nat
  | [] => []
  | (now, d) :: rest =>
    let r := Client.throttle c now d
    match r.2.last_request with
    | some t => t :: issueTimes r.2 rest
    | none => issueTimes r.2 rest

/-- A call sequence is valid when each call's clock reading is not earlier
than the previously recorded issue timestamp (the monotonic clock only moves
forward between consecutive calls of the single lookup worker). -/
def validCalls (c : Client) : List (Nat × Nat) → Prop
  | [] => True
  | (now, d) :: rest =>
    (∀ t, c.last_request = some t → t ≤ now) ∧
    validCalls (Client.throttle c now d).2 rest

theorem throttle_last_request (c : Client) (now d : Nat) :
    (Client.throttle c now d).2.last_request =
      some (match c.last_request with
            | none => now + d
            | some last =>
              if now - last < RATE_LIMIT then now + (RATE_LIMIT - (now - last)) + d
              else now + d) := by
  obtain ⟨last?⟩ := c
  cases last? with
  | none => rfl
  | some last =>
    by_cases h : now - last < RATE_LIMIT <;> simp [Client.throttle, h]

theorem throttle_issue_ge {last now d t : Nat} (hle : last ≤ now)
    (ht : (Client.throttle { last_request := some last } now d).2.last_request = some t) :
    last + RATE_LIMIT ≤ t := by
  rw [throttle_last_request] at ht
  simp only [Option.some.injEq] at ht
  subst ht
  by_cases h : now - last < RATE_LIMIT <;> simp only [h, if_true, if_false] <;> omega

theorem issueTimes_chain (calls : List (Nat × Nat)) :
    ∀ c : Client, validCalls c calls →
      List.Chain' (fun a b => a + RATE_LIMIT ≤ b) (issueTimes c calls) := by
  induction calls with
  | nil =>
    intro c _
    simp [issueTimes]
  | cons nd rest ih =>
    intro c hv
    obtain ⟨now, d⟩ := nd
    obtain ⟨hle, hv'⟩ := hv
    have hlast := throttle_last_request c now d
    simp only [issueTimes, hlast]
    set t := (match c.last_request with
            | none => now + d
            | some last =>
              if now - last < RATE_LIMIT then now + (RATE_LIMIT - (now - last)) + d
              else now + d) with hts
    have hc2 : (Client.throttle c now d).2 = { last_request := some t } := by
      have : (Client.throttle c now d).2 =
          { last_request := (Client.throttle c now d).2.last_request } := rfl
      rw [this, hlast]
    rw [hc2] at hv'
    have hchain := ih _ hv'
    rw [hc2]
    cases rest with
    | nil => simp [issueTimes]
    | cons nd2 rest2 =>
      obtain ⟨now2, d2⟩ := nd2
      obtain ⟨hle2, _⟩ := hv'
      have hle2' : t ≤ now2 := hle2 t rfl
      have hlast2 := throttle_last_request { last_request := some t } now2 d2
      simp only [issueTimes, hlast2] at hchain ⊢
      refine List.chain'_cons.mpr ⟨?_, hchain⟩
      exact throttle_issue_ge hle2' hlast2

/-- C7: across any valid sequence of search_release calls, consecutive issue
timestamps are at least RATE_LIMIT apart; moreover when less than RATE_LIMIT
has elapsed since the previous issue, throttle sleeps for exactly the
remaining delta, and otherwise it does not sleep at all. -/
theorem lookup_rate_limit (c : Client) (calls : List (Nat × Nat))
    (h : validCalls c calls) :
    List.Chain' (fun a b => a + RATE_LIMIT ≤ b) (issueTimes c calls) ∧
    (∀ last now d, now - last < RATE_LIMIT →
      (Client.throttle { last_request := some last } now d).1 =
        RATE_LIMIT - (now - last)) ∧
    (∀ last now d, RATE_LIMIT ≤ now - last →
      (Client.throttle { last_request := some last } now d).1 = 0) := by
  refine ⟨issueTimes_chain calls c h, ?_, ?_⟩
  · intro last now d hlt
    simp [Client.throttle, hlt]
  · intro last now d hge
    have : ¬ (now - last < RATE_LIMIT) := by omega
    simp [Client.throttle, this]

theorem lookup_rate_limit_witness :
    List.Chain' (fun a b => a + RATE_LIMIT ≤ b)
      (issueTimes Client.new [(0, 0), (100, 0), (2500, 0)]) :=
  (lookup_rate_limit Client.new [(0, 0), (100, 0), (2500, 0)]
    (by
      refine ⟨?_, ?_, ?_, trivial⟩
      · intro t ht
        cases ht
      · intro t ht
        simp [Client.new, Client.throttle] at ht
        omega
      · intro t ht
        simp [Client.new, Client.throttle, RATE_LIMIT] at ht
        omega)).1

/-! Directory walk, from src/scanner/mod.rs (scan_directory_recursive). -/

mutual

/-- A directory in the scanned filesystem: its name, whether read_dir
succeeds on it, its supported-extension audio files (none = metadata
extraction fails for that file, which is silently skipped), and its
subdirectories. -/
inductive FsTree where
  | mk (name : String) (readable : Bool) (files : List (Option AudioFile))
      (subdirs : FsForest)

/-- A list of subdirectories. -/
inductive FsForest where
  | nil
  | cons (head : FsTree) (tail : FsForest)

end

def FsTree.dirName : FsTree → String
  | FsTree.mk n _ _ _ => n

/-- is_hidden from src/scanner/mod.rs: the file name starts with a dot. -/
def is_hidden (name : String) : Bool :=
  match name.data with
  | [] => false
  | c :: _ => c == '.'

mutual

/-- scan_directory_recursive from src/scanner/mod.rs: an unreadable directory
aborts the whole walk with an error; otherwise subdirectories are processed
first (depth-first, hidden ones skipped), then the directory's own files are
extracted, clustered and sent. Returns the clusters sent before returning
and the error, if any, that aborted the walk. -/
def scanTree : FsTree → List AlbumCluster × Option String
  | FsTree.mk _ false _ _ => ([], some "Failed to read directory")
  | FsTree.mk _ true files subdirs =>
    match scanSubdirs subdirs with
    | (cs, some e) => (cs, some e)
    | (cs, none) =>
      if files.isEmpty then (cs, none)
      else
        let audio_files := files.filterMap id
        if audio_files.isEmpty then (cs, none)
        else (cs ++ cluster_files audio_files, none)

/-- The subdirectory loop of scan_directory_recursive: the first error aborts
the walk (the ? operator propagates it), skipping all later siblings. -/
def scanSubdirs : FsForest → List AlbumCluster × Option String
  | FsForest.nil => ([], none)
  | FsForest.cons head tail =>
    if is_hidden head.dirName then scanSubdirs tail
    else
      match scanTree head with
      | (cs, some e) => (cs, some e)
      | (cs, none) =>
        match scanSubdirs tail with
        | (cs2, r) => (cs ++ cs2, r)

end

/-- An unreadable directory. -/
def badDir : FsTree := FsTree.mk "albums" false [] FsForest.nil

/-- A readable directory holding one extractable audio file. -/
def goodDir : FsTree := FsTree.mk "good" true [some fileA] FsForest.nil

/-- A scan root whose first subdirectory cannot be read; a later sibling
directory does contain music. -/
def failTree : FsTree :=
  FsTree.mk "root" true [] (FsForest.cons badDir (FsForest.cons goodDir FsForest.nil))

theorem applyProgress_flags (app : App) (p : ScanProgress) :
    (applyProgress app p).scan_rx_connected = app.scan_rx_connected ∧
    (applyProgress app p).search_rx_connected = app.search_rx_connected ∧
    (applyProgress app p).state.isError = app.state.isError := by
  obtain ⟨pend, st, sq, w1, w2, w3⟩ := app
  cases st <;> exact ⟨rfl, rfl, rfl⟩

theorem foldlProgress_flags (msgs : List ScanProgress) :
    ∀ app : App,
      ((msgs.foldl applyProgress app).scan_rx_connected = app.scan_rx_connected) ∧
      ((msgs.foldl applyProgress app).search_rx_connected = app.search_rx_connected) ∧
      ((msgs.foldl applyProgress app).state.isError = app.state.isError) := by
  induction msgs with
  | nil => intro app; exact ⟨rfl, rfl, rfl⟩
  | cons p ps ih =>
    intro app
    have h1 := applyProgress_flags app p
    have h2 := ih (applyProgress app p)
    exact ⟨h2.1.trans h1.1, h2.2.1.trans h1.2.1, h2.2.2.trans h1.2.2⟩

theorem applySearchMessage_flags (app : App) (m : SearchMessage) :
    (applySearchMessage app m).scan_rx_connected = app.scan_rx_connected ∧
    (applySearchMessage app m).search_rx_connected = app.search_rx_connected := by
  obtain ⟨pend, st, sq, w1, w2, w3⟩ := app
  cases m <;> cases st <;> cases pend <;>
    simp [applySearchMessage, updateScanningStatus, App.show_next_cluster]

theorem applySearchMessage_isError (app : App) (m : SearchMessage)
    (h : app.state.isError = false) :
    (applySearchMessage app m).state.isError = false := by
  obtain ⟨pend, st, sq, w1, w2, w3⟩ := app
  cases m <;> cases st <;> cases pend <;>
    simp_all [applySearchMessage, updateScanningStatus, App.show_next_cluster,
      AppState.isError]

theorem foldlSearch_flags (msgs : List SearchMessage) :
    ∀ app : App,
      ((msgs.foldl applySearchMessage app).scan_rx_connected = app.scan_rx_connected) ∧
      ((msgs.foldl applySearchMessage app).search_rx_connected = app.search_rx_connected) := by
  induction msgs with
  | nil => intro app; exact ⟨rfl, rfl⟩
  | cons m ms ih =>
    intro app
    have h1 := applySearchMessage_flags app m
    have h2 := ih (applySearchMessage app m)
    exact ⟨h2.1.trans h1.1, h2.2.trans h1.2⟩

theorem foldlSearch_isError (msgs : List SearchMessage) :
    ∀ app : App, app.state.isError = false →
      ((msgs.foldl applySearchMessage app).state.isError = false) := by
  induction msgs with
  | nil => intro app h; exact h
  | cons m ms ih =>
    intro app h
    exact ih (applySearchMessage app m) (applySearchMessage_isError app m h)

theorem handle_messages_no_error (app : App) (progressMsgs : List ScanProgress)
    (searchMsgs : List SearchMessage) (scanMsg : Option ScanMessage)
    (hscan : app.scan_rx_connected = false) (herr : app.state.isError = false) :
    (app.handle_messages progressMsgs searchMsgs scanMsg).state.isError = false := by
  unfold App.handle_messages
  set app1 := if app.scan_progress_rx_connected
    then progressMsgs.foldl applyProgress app else app with happ1
  have h1scan : app1.scan_rx_connected = false := by
    rw [happ1]
    split
    · rw [(foldlProgress_flags progressMsgs app).1]
      exact hscan
    · exact hscan
  have h1err : app1.state.isError = false := by
    rw [happ1]
    split
    · rw [(foldlProgress_flags progressMsgs app).2.2]
      exact herr
    · exact herr
  set app2 := if app1.search_rx_connected
    then searchMsgs.foldl applySearchMessage app1 else app1 with happ2
  have h2scan : app2.scan_rx_connected = false := by
    rw [happ2]
    split
    · rw [(foldlSearch_flags searchMsgs app1).1]
      exact h1scan
    · exact h1scan
  have h2err : app2.state.isError = false := by
    rw [happ2]
    split
    · exact foldlSearch_isError searchMsgs app1 h1err
    · exact h1err
  have key : ∀ b : App, b.scan_rx_connected = false → b.state.isError = false →
      (if b.scan_rx_connected = true then
        (match scanMsg with
         | some m => applyScanMessage b m
         | none => b)
      else b).state.isError = false := by
    intro b hb herrb
    rw [hb]
    simpa using herrb
  exact key app2 h2scan h2err

/-- C5 (code bug): on a scan root with an unreadable subdirectory the walk
does abort with a directory-read error (no later cluster is emitted), but
App::start_scan never assigns scan_rx (no ScanMessage channel exists and the
spawned walker discards the error), so no walk-error event reaches the
orchestrator and handle_messages can never reach the Error state. -/
theorem walk_error_dropped :
    (scanTree failTree).2 = some "Failed to read directory" ∧
    (scanTree failTree).1 = [] ∧
    (∀ path, (App.start_scan (App.new path)).scan_rx_connected = false) ∧
    (∀ path progressMsgs searchMsgs scanMsg,
      ((App.start_scan (App.new path)).handle_messages progressMsgs searchMsgs
        scanMsg).state.isError = false) := by
  refine ⟨rfl, rfl, fun path => rfl, ?_⟩
  intro path progressMsgs searchMsgs scanMsg
  exact handle_messages_no_error _ _ _ _ rfl rfl

/-! Process bootstrap, from src/main.rs. -/

/-- Terminal side effects performed by main: ratatui::init, a frame drawn by
terminal.draw inside App::run, and ratatui::restore. -/
inductive TermAction where
  | initTerminal
  | drawFrame
  | restoreTerminal
deriving DecidableEq, Repr

/-- parse_args from src/main.rs: take the first positional argument, or the
current working directory when absent; fail if the resolved path does not
exist or is not a directory. pathExists and pathIsDir model the filesystem
queries. -/
def parse_args (arg : Option (List String)) (cwd : List String)
    (pathExists pathIsDir : List String → Bool) : Except String (List String) :=
  let path := match arg with
    | some p => p
    | none => cwd
  if !(pathExists path) then
    Except.error ("Path " ++ String.intercalate "/" path ++ " does not exist")
  else if !(pathIsDir path) then
    Except.error ("Path " ++ String.intercalate "/" path ++ " is not a directory")
  else Except.ok path

/-- main from src/main.rs as a trace of terminal actions plus its Result:
ratatui::init runs first, then parse_args; on a parse failure the ? operator
returns the error immediately (process exits non-zero) before App::run ever
draws a frame; on success App::run draws frames (their number modelled by
runDraws) and ratatui::restore runs afterwards. -/
def mainTrace (arg : Option (List String)) (cwd : List String)
    (pathExists pathIsDir : List String → Bool) (runDraws : Nat) :
    Except String Unit × List TermAction :=
  let acts := [TermAction.initTerminal]
  match parse_args arg cwd pathExists pathIsDir with
  | Except.error e => (Except.error e, acts)
  | Except.ok _ =>
    (Except.ok (), acts ++ List.replicate runDraws TermAction.drawFrame
      ++ [TermAction.restoreTerminal])

/-- C9: when the resolved scan root does not exist or is not a directory,
main returns an error (the process exits with a non-zero status) and no
frame is ever drawn. -/
theorem bad_scan_root (arg : Option (List String)) (cwd : List String)
    (pathExists pathIsDir : List String → Bool) (runDraws : Nat)
    (h : pathExists (arg.getD cwd) = false ∨ pathIsDir (arg.getD cwd) = false) :
    (∃ e, (mainTrace arg cwd pathExists pathIsDir runDraws).1 = Except.error e) ∧
    TermAction.drawFrame ∉ (mainTrace arg cwd pathExists pathIsDir runDraws).2 := by
  cases arg with
  | none =>
    simp only [Option.getD_none] at h
    unfold mainTrace parse_args
    cases hE : pathExists cwd with
    | false => simp [hE]
    | true =>
      have hD : pathIsDir cwd = false := by
        rcases h with h | h
        · rw [hE] at h
          cases h
        · exact h
      simp [hE, hD]
  | some p =>
    simp only [Option.getD_some] at h
    unfold mainTrace parse_args
    cases hE : pathExists p with
    | false => simp [hE]
    | true =>
      have hD : pathIsDir p = false := by
        rcases h with h | h
        · rw [hE] at h
          cases h
        · exact h
      simp [hE, hD]

theorem bad_scan_root_witness :
    (∃ e, (mainTrace (some ["nonexistent"]) [] (fun _ => false) (fun _ => false) 3).1 =
      Except.error e) ∧
    TermAction.drawFrame ∉
      (mainTrace (some ["nonexistent"]) [] (fun _ => false) (fun _ => false) 3).2 :=
  bad_scan_root (some ["nonexistent"]) [] (fun _ => false) (fun _ => false) 3 (Or.inl rfl)

theorem codec_spec_witness :
    clusterAB.codec = some AudioCodec.mp3 ↔
      (clusterAB.tracks ≠ [] ∧ ∀ t ∈ clusterAB.tracks, t.codec = AudioCodec.mp3) :=
  codec_spec clusterAB AudioCodec.mp3
